import Mathlib

/-!
Verification of the EZAIMD molecular-dynamics driver.

The Rust source (src/vector.rs, src/vectored.rs, src/atom.rs,
src/simulation.rs) is shallowly embedded below.  Floating-point (`f64`)
arithmetic is modelled exactly: the integrator, ingestion and range-parsing
code is embedded over `ℚ`, and the thermostat (which takes a square root)
over `ℝ`.  File handles are modelled as lists of lines, each line a list of
characters; the nondeterministic normal sampler of `AtomFactory::rand_vel`
is modelled by an explicit sample argument; Rust panics (`unwrap`,
out-of-bounds indexing, arithmetic underflow) are modelled by `Option`,
`none` meaning a panic/abort.
-/

namespace EZAIMD

/-- Embedding of `Vector3D<T>` from src/vector.rs: a 3-component vector. -/
@[ext]
structure Vector3D (K : Type) where
  x : K
  y : K
  z : K
deriving DecidableEq, Repr

variable {K : Type} [Field K]

/-- Embedding of `impl Add for Vector3D<T>` (componentwise). -/
def vadd (a b : Vector3D K) : Vector3D K :=
  ⟨a.x + b.x, a.y + b.y, a.z + b.z⟩

/-- Embedding of `impl Sub for Vector3D<T>` (componentwise). -/
def vsub (a b : Vector3D K) : Vector3D K :=
  ⟨a.x - b.x, a.y - b.y, a.z - b.z⟩

/-- Embedding of `impl Mul<T> for Vector3D<T>`: vector times scalar. -/
def vmul (v : Vector3D K) (c : K) : Vector3D K :=
  ⟨v.x * c, v.y * c, v.z * c⟩

/-- Embedding of `impl Mul<Vector3D<f64>> for f64`: scalar times vector
(the source computes `rhs.x * self`, etc.). -/
def smul (c : K) (v : Vector3D K) : Vector3D K :=
  ⟨v.x * c, v.y * c, v.z * c⟩

/-- Embedding of `Vectored::sqr_norm` from src/vectored.rs: `x² + y² + z²`. -/
def sqr_norm (v : Vector3D K) : K :=
  v.x ^ 2 + v.y ^ 2 + v.z ^ 2

/-- Embedding of `Atom` from src/atom.rs.  The five nominal wrapper types
(`Position`, `Velocity`, `Force`, ...) all wrap a `Vector3D` with identical
componentwise arithmetic, so they are embedded as `Vector3D` directly. -/
structure Atom (K : Type) where
  symbol : String
  mass : K
  can_mv : Bool
  pos : Vector3D K
  vel : Vector3D K
  force : Vector3D K
  next_force : Vector3D K
deriving DecidableEq, Repr

/-- Embedding of `Simulation` from src/simulation.rs. -/
structure Simulation (K : Type) where
  atoms : List (Atom K)
  time_step : K
  num_steps : ℕ
  step_num : ℕ
  pot_energy : K
  kin_energy : K
  tot_energy : K
deriving DecidableEq, Repr

/-- Embedding of `Simulation::update_pos`: for every `can_mv` atom
`pos ← pos + vel*dt + 0.5*force*(1/mass)*dt²`; frozen atoms keep their
position.  The source maps the closure over a clone of `atoms` and writes
the results back index by index, which is the same as mapping in place. -/
def update_pos (s : Simulation K) : Simulation K :=
  { s with atoms := s.atoms.map fun x =>
      if x.can_mv then
        { x with pos := vadd (vadd x.pos (vmul x.vel s.time_step))
                          (vmul (vmul (smul (1 / 2) x.force) (1 / x.mass)) (s.time_step ^ 2)) }
      else x }

/-- Embedding of `Simulation::update_vel`: for every `can_mv` atom
`vel ← vel + 0.5*(force + next_force)*(1/mass)*dt`, frozen atoms keep their
velocity; afterwards `force ← next_force` for every atom. -/
def update_vel (s : Simulation K) : Simulation K :=
  { s with atoms := s.atoms.map fun x =>
      let v := if x.can_mv then
          vadd x.vel (vmul (vmul (smul (1 / 2) (vadd x.force x.next_force)) (1 / x.mass))
            s.time_step)
        else x.vel
      { x with vel := v, force := x.next_force } }

/-- A mobile atom used in concrete witness states. -/
def atomA : Atom ℚ :=
  { symbol := "H", mass := 2, can_mv := true, pos := ⟨1, 2, 3⟩, vel := ⟨4, 5, 6⟩,
    force := ⟨7, 8, 9⟩, next_force := ⟨10, 11, 12⟩ }

/-- A frozen atom used in concrete witness states. -/
def atomB : Atom ℚ :=
  { symbol := "O", mass := 4, can_mv := false, pos := ⟨1, 1, 1⟩, vel := ⟨2, 2, 2⟩,
    force := ⟨3, 3, 3⟩, next_force := ⟨6, 6, 6⟩ }

/-- A concrete two-atom simulation state used in witnesses. -/
def simAB : Simulation ℚ :=
  { atoms := [atomA, atomB], time_step := 2, num_steps := 5, step_num := 0,
    pot_energy := 0, kin_energy := 0, tot_energy := 0 }

/-- Embedding of the first fold of `AtomFactory::rm_cmv`: the mass-weighted velocity sum
`Σ mᵢ·vᵢ` (`atoms.map(|x| x.mass * x.vel).fold(0, +)`). -/
def cmv_mv (atoms : List (Atom K)) : Vector3D K :=
  (atoms.map fun x => smul x.mass x.vel).foldl vadd ⟨0, 0, 0⟩

/-- Embedding of the second fold of `AtomFactory::rm_cmv`: the total mass `Σ mᵢ`. -/
def cmv_m (atoms : List (Atom K)) : K :=
  (atoms.map fun x => x.mass).sum

/-- Embedding of the `cmv` value of `AtomFactory::rm_cmv`: the center-of-mass velocity
`cmv = cmv_mv * (1 / cmv_m)`. -/
def cmv (atoms : List (Atom K)) : Vector3D K :=
  vmul (cmv_mv atoms) (1 / cmv_m atoms)

/-- Embedding of `AtomFactory::apply_to_atom`: subtract `value` from the velocity. -/
def apply_to_atom (atom : Atom K) (value : Vector3D K) : Atom K :=
  { atom with vel := vsub atom.vel value }

/-- Embedding of `AtomFactory::rm_cmv`: subtract the center-of-mass velocity from every
atom. -/
def rm_cmv (atoms : List (Atom K)) : List (Atom K) :=
  atoms.map fun x => apply_to_atom x (cmv atoms)

/-- Embedding of `Simulation::update_kin`: `kin_energy ← (Σ 0.5·mᵢ·|vᵢ|²) * 100`. -/
def update_kin (s : Simulation K) : Simulation K :=
  { s with kin_energy := ((s.atoms.map fun x => (1 / 2) * x.mass * sqr_norm x.vel).sum) * 100 }

/-- The gas constant 8.31446261815324 appearing in `Simulation::scale_temp`,
as an exact rational value. -/
noncomputable def Rgas : ℝ :=
  (831446261815324 : ℝ) / 10 ^ 14

/-- The equipartition temperature implied by a stored kinetic energy, the
subexpression `(2.0/3.0) * ((kin_energy * 100.0 * 1000.0) / 8.31446261815324)`
of `Simulation::scale_temp`. -/
noncomputable def temp_of (kin : ℝ) : ℝ :=
  (2 / 3) * ((kin * 100 * 1000) / Rgas)

/-- Embedding of `Simulation::scale_temp`: multiply every atom's velocity by
`scalar = sqrt(300 / T_inst)` where `T_inst` is `temp_of` of the stored
kinetic energy. -/
noncomputable def scale_temp (s : Simulation ℝ) : Simulation ℝ :=
  let scalar := Real.sqrt (300 / temp_of s.kin_energy)
  { s with atoms := s.atoms.map fun a => { a with vel := vmul a.vel scalar } }

/-- A concrete one-atom state for the C4 witness: mass 2, velocity (1,0,0),
stored kinetic energy `(1/2 · 2 · 1) · 100 = 100`. -/
noncomputable def simT : Simulation ℝ :=
  { atoms := [{ symbol := "H", mass := 2, can_mv := true, pos := ⟨0, 0, 0⟩,
                vel := ⟨1, 0, 0⟩, force := ⟨0, 0, 0⟩, next_force := ⟨0, 0, 0⟩ }],
    time_step := 1, num_steps := 0, step_num := 0,
    pot_energy := 0, kin_energy := 100, tot_energy := 0 }

/-- Embedding of `str::split_whitespace`: maximal runs of non-whitespace characters. -/
def splitWs (cs : List Char) : List (List Char) :=
  (cs.splitOnP fun c => c.isWhitespace).filter fun w => w ≠ []

/-- Numeric value of a digit string (most significant first). -/
def digitsToNat (cs : List Char) : ℕ :=
  cs.foldl (fun acc c => acc * 10 + (c.toNat - 48)) 0

/-- Parse a nonempty all-digit string. -/
def parseNatDigits (cs : List Char) : Option ℕ :=
  if cs ≠ [] ∧ cs.all Char.isDigit then some (digitsToNat cs) else none

/-- Rust unsigned-integer `parse`: optional `+`, digits, value below the
type's bound (overflow is an `Err`). -/
def parseUIntB (bound : ℕ) (cs : List Char) : Option ℕ :=
  let cs1 := match cs with
    | '+' :: rest => rest
    | _ => cs
  match parseNatDigits cs1 with
  | some n => if n < bound then some n else none
  | none => none

/-- Embedding of `str::parse::<u32>`. -/
def parseU32 : List Char → Option ℕ :=
  parseUIntB (2 ^ 32)

/-- Embedding of `str::parse::<usize>` (64-bit). -/
def parseUsize : List Char → Option ℕ :=
  parseUIntB (2 ^ 64)

/-- Exponent part of a float literal: optional sign and digits. -/
def expPart (cs : List Char) : Option ℚ :=
  match cs with
  | '-' :: r => (parseNatDigits r).map fun n => 1 / 10 ^ n
  | '+' :: r => (parseNatDigits r).map fun n => (10 : ℚ) ^ n
  | r => (parseNatDigits r).map fun n => (10 : ℚ) ^ n

/-- Embedding of `str::parse::<f64>` on the decimal forms the program meets
(`[+-]? digits [. digits]? [eE [+-]? digits]?`, at least one digit), with
the exact rational value in place of the nearest double. -/
def parseF64 (cs0 : List Char) : Option ℚ :=
  let sgn : ℚ := match cs0 with
    | '-' :: _ => -1
    | _ => 1
  let cs := match cs0 with
    | '-' :: r => r
    | '+' :: r => r
    | r => r
  let ip := cs.takeWhile Char.isDigit
  let rest := cs.dropWhile Char.isDigit
  let ival : ℚ := digitsToNat ip
  match rest with
  | [] => if ip = [] then none else some (sgn * ival)
  | '.' :: r =>
    let fp := r.takeWhile Char.isDigit
    let rest2 := r.dropWhile Char.isDigit
    if ip = [] ∧ fp = [] then none
    else
      let fval : ℚ := ival + digitsToNat fp / 10 ^ fp.length
      match rest2 with
      | [] => some (sgn * fval)
      | 'e' :: er => (expPart er).map fun e => sgn * fval * e
      | 'E' :: er => (expPart er).map fun e => sgn * fval * e
      | _ => none
  | 'e' :: er => if ip = [] then none else (expPart er).map fun e => sgn * ival * e
  | 'E' :: er => if ip = [] then none else (expPart er).map fun e => sgn * ival * e
  | _ => none

/-- One element of the regular expressions used by the program: a single
character from a class, an optional character, or a nonempty repetition. -/
inductive RE where
  | cls (p : Char → Bool)
  | opt (p : Char → Bool)
  | plus (p : Char → Bool)

/-- Backtracking matcher for a `^`-anchored sequence of `RE` elements
against a prefix of the line (trailing characters are allowed, as with
`Regex::is_match`).  Structural recursion on an explicit fuel so that
concrete instances evaluate by `decide`; each step shrinks
`2·|cs| + |rs|`, so the fuel used by `reMatch` below is always enough. -/
def matchSeqF : ℕ → List RE → List Char → Bool
  | 0, _, _ => false
  | _ + 1, [], _ => true
  | f + 1, RE.cls p :: rs, cs =>
    match cs with
    | [] => false
    | c :: cs1 => p c && matchSeqF f rs cs1
  | f + 1, RE.opt p :: rs, cs =>
    matchSeqF f rs cs ||
      (match cs with
       | [] => false
       | c :: cs1 => p c && matchSeqF f rs cs1)
  | f + 1, RE.plus p :: rs, cs =>
    match cs with
    | [] => false
    | c :: cs1 => p c && (matchSeqF f rs cs1 || matchSeqF f (RE.plus p :: rs) cs1)

/-- Run the matcher with sufficient fuel. -/
def reMatch (rs : List RE) (cs : List Char) : Bool :=
  matchSeqF (2 * cs.length + rs.length + 1) rs cs

/-- Character class `\s`. -/
def wsP (c : Char) : Bool := c.isWhitespace

/-- Character class `\d`. -/
def digitP (c : Char) : Bool := c.isDigit

/-- The group `(\s+)-?\d+.\d+` (the unescaped `.` matches any character). -/
def floatGroup : List RE :=
  [RE.plus wsP, RE.opt fun c => c = '-', RE.plus digitP,
   RE.cls fun _ => true, RE.plus digitP]

/-- The per-atom record pattern of `AtomFactory::read_atomic_lines`:
`^(\s)+\d+(\s)+\d+(\s)+\d+((\s+)-?\d+.\d+){3}`. -/
def atomLinePat : List RE :=
  [RE.plus wsP, RE.plus digitP, RE.plus wsP, RE.plus digitP, RE.plus wsP, RE.plus digitP]
    ++ floatGroup ++ floatGroup ++ floatGroup

/-- The force record pattern of `GaussianOutput::new`:
`^(\s)+\d+(\s)+\d+((\s+)-?\d+.\d+){3}`. -/
def forceLinePat : List RE :=
  [RE.plus wsP, RE.plus digitP, RE.plus wsP, RE.plus digitP]
    ++ floatGroup ++ floatGroup ++ floatGroup

/-- Embedding of `SymbolMass` from src/atom.rs. -/
structure SymbolMass where
  symbol : String
  mass : ℚ
deriving DecidableEq, Repr

/-- Embedding of `AtomFactory::gn_symbol`: the species table; unmapped atomic numbers
are an error. -/
def gn_symbol (num : ℕ) : Option SymbolMass :=
  match num with
  | 1 => some ⟨"H", 1.008⟩
  | 2 => some ⟨"He", 4.0026⟩
  | 6 => some ⟨"C", 12.011⟩
  | 7 => some ⟨"N", 14.007⟩
  | 8 => some ⟨"O", 15.999⟩
  | 9 => some ⟨"F", 18.998⟩
  | 10 => some ⟨"Ne", 20.180⟩
  | 15 => some ⟨"P", 30.974⟩
  | 16 => some ⟨"S", 32.06⟩
  | 17 => some ⟨"Cl", 35.45⟩
  | 47 => some ⟨"Ag", 107.87⟩
  | 79 => some ⟨"Au", 196.97⟩
  | _ => none

/-- Embedding of `AtomFactory::make_atom`: split the line on whitespace, skip the index,
parse the atomic number, look it up, skip the type code, parse the three
coordinates.  The normal sample drawn by `rand_vel` for this atom is the
explicit `sample` argument; the source assigns the one drawn value to all
three velocity components.  Any `unwrap` failure is `none`. -/
def make_atom (line : List Char) (sample : ℚ) : Option (Atom ℚ) :=
  let ts := splitWs line
  match ts[0]?, ts[1]?, ts[2]?, ts[3]?, ts[4]?, ts[5]? with
  | some _, some t1, some _, some tx, some ty, some tz =>
    match parseU32 t1 with
    | some n =>
      match gn_symbol n with
      | some sm =>
        match parseF64 tx, parseF64 ty, parseF64 tz with
        | some x, some y, some z =>
          some { symbol := sm.symbol, mass := sm.mass, can_mv := true,
                 pos := ⟨x, y, z⟩, vel := ⟨sample, sample, sample⟩,
                 force := ⟨0, 0, 0⟩, next_force := ⟨0, 0, 0⟩ }
        | _, _, _ => none
      | none => none
    | none => none
  | _, _, _, _, _, _ => none

/-- Embedding of `AtomFactory::read_atomic_lines`: keep the lines matching the per-atom
record pattern, in file order. -/
def read_atomic_lines (buffer : List (List Char)) : List (List Char) :=
  buffer.filter fun l => reMatch atomLinePat l

/-- Check that `pat` is a prefix of the second list. -/
def hasPrefixC : List Char → List Char → Bool
  | [], _ => true
  | _ :: _, [] => false
  | p :: ps, c :: cs => (p = c) && hasPrefixC ps cs

/-- Unanchored search for the literal pattern `pat` anywhere in the line,
the semantics of `Regex::new("NAtoms=").is_match`. -/
def containsSub (pat : List Char) : List Char → Bool
  | [] => hasPrefixC pat []
  | c :: cs => hasPrefixC pat (c :: cs) || containsSub pat cs

/-- Embedding of `AtomFactory::get_num_atoms`: first line containing `NAtoms=`, first
whitespace token that parses as `usize`; `none` models the `unwrap` panic
when the directive is absent. -/
def get_num_atoms (buffer : List (List Char)) : Option ℕ :=
  let line := ((buffer.filter fun l => containsSub ("NAtoms=".toList) l).take 1).flatten
  (splitWs line).findSome? parseUsize

/-- Rust `Iterator::collect` over a panicking per-element conversion:
`none` as soon as one element fails. -/
def optMapM {α β : Type} (f : α → Option β) : List α → Option (List β)
  | [] => some []
  | a :: as =>
    match f a, optMapM f as with
    | some b, some bs => some (b :: bs)
    | _, _ => none

/-- Embedding of `AtomFactory::gn_atoms`: collect the matching lines, read the declared
atom count, keep the last `num_atoms` matching lines in order, build one
atom per line (the i-th selected line consumes the i-th random sample), and
remove the center-of-mass velocity. -/
def gn_atoms (buffer : List (List Char)) (samples : ℕ → ℚ) : Option (List (Atom ℚ)) :=
  match get_num_atoms buffer with
  | none => none
  | some num_atoms =>
    match optMapM (fun p => make_atom p.2 (samples p.1))
        (((read_atomic_lines buffer).reverse.take num_atoms).reverse).enum with
    | none => none
    | some atoms => some (rm_cmv atoms)

/-- A concrete per-atom record line. -/
def line9 : List Char := "  1  1  0  1.0  2.0  3.0".toList

/-- A concrete source with a count directive, three matching record lines
and one non-matching line. -/
def buf5 : List (List Char) :=
  [" NAtoms=     2 NActive=     2".toList,
   "  1  1  0  1.0  2.0  3.0".toList,
   "  2  1  0  4.0  5.0  6.0".toList,
   "  3  8  0  7.0  8.0  9.0".toList]

/-- The all-zero sample stream used in witnesses. -/
def smp0 : ℕ → ℚ := fun _ => 0

/-- Embedding of `GaussianOutput` from src/simulation.rs. -/
structure GaussianOutput where
  scf : ℚ
  forces : List (Vector3D ℚ)
deriving DecidableEq, Repr

/-- Embedding of `GaussianOutput::convert_to_force`: tokens 2,3,4 of the line parsed as
floats, scaled by the Eh/Bohr conversion factor 0.496147792; token-parse
`unwrap` failures are `none`. -/
def convert_to_force (line : List Char) : Option (Vector3D ℚ) :=
  match (splitWs line)[2]?, (splitWs line)[3]?, (splitWs line)[4]? with
  | some a, some b, some c =>
    match parseF64 a, parseF64 b, parseF64 c with
    | some x, some y, some z => some (vmul ⟨x, y, z⟩ 0.496147792)
    | _, _, _ => none
  | _, _, _ => none

/-- Embedding of `GaussianOutput::new`: the force records are the lines matching the
force pattern (non-matching lines are silently dropped by the `filter`);
the SCF energy is the first parseable token of the last line starting with
`" SCF Done"`, and its absence is an `unwrap` panic (`none`). -/
def gaussianOutput_new (buffer : List (List Char)) : Option GaussianOutput :=
  match optMapM convert_to_force (buffer.filter fun l => reMatch forceLinePat l),
      (splitWs (((buffer.filter fun l => hasPrefixC (" SCF Done".toList) l).reverse.take 1).flatten)).findSome? parseF64 with
  | some forces, some scf => some ⟨scf, forces⟩
  | _, _ => none

/-- Embedding of `Simulation::update_next_forces`: write the i-th force into the i-th
atom's `next_force`.  Atoms beyond the force list keep their old register;
more forces than atoms is an out-of-bounds panic (`none`). -/
def update_next_forces_atoms : List (Atom ℚ) → List (Vector3D ℚ) → Option (List (Atom ℚ))
  | atoms, [] => some atoms
  | [], _ :: _ => none
  | a :: as, f :: fs =>
    match update_next_forces_atoms as fs with
    | some bs => some ({ a with next_force := f } :: bs)
    | none => none

/-- A Gaussian output containing a well-formed SCF energy line but no force
records at all. -/
def gbuf7 : List (List Char) :=
  [" SCF Done:  E(RHF) =  -74.96  A.U.".toList]

/-- An atom carrying a stale (nonzero) force register. -/
def atom7 : Atom ℚ :=
  { symbol := "H", mass := 1, can_mv := true, pos := ⟨0, 0, 0⟩, vel := ⟨0, 0, 0⟩,
    force := ⟨2, 2, 2⟩, next_force := ⟨2, 2, 2⟩ }

/-- Embedding of `Range` from src/simulation.rs. -/
structure Range where
  low : ℕ
  high : ℕ
deriving DecidableEq, Repr

/-- Embedding of `Range::gen_numbers`: the inclusive range `low..=high` (empty when
`high < low`). -/
def gen_numbers (r : Range) : List ℕ :=
  List.range' r.low (r.high + 1 - r.low)

/-- Embedding of `Simulation::convert_to_range`: split the token on `-`, keep the parts
that parse as `u32`, and index parts 0 and 1 — an out-of-bounds panic
(`none`) when fewer than two parts parse. -/
def convert_to_range (line : List Char) : Option Range :=
  match ((line.splitOn '-').filterMap parseU32)[0]?,
      ((line.splitOn '-').filterMap parseU32)[1]? with
  | some a, some b => some ⟨a, b⟩
  | _, _ => none

/-- Embedding of `Simulation::parse_string`: split on `,`, convert each token to a range
and concatenate the generated index lists. -/
def parse_string (s : List Char) : Option (List ℕ) :=
  match optMapM (fun t => (convert_to_range t).map gen_numbers) (s.splitOn ',') with
  | some ls => some ls.flatten
  | none => none

/-- The range a well-formed token denotes: its first two parsed parts. -/
def rangeOf (t : List Char) : Range :=
  ⟨((t.splitOn '-').filterMap parseU32).getD 0 0,
   ((t.splitOn '-').filterMap parseU32).getD 1 0⟩

/-- One iteration of the `Simulation::freeze_atoms` loop:
`atoms[(value - 1) as usize].can_mv = false; ... .vel = 0`.  `value` is a
parsed `u32`, so `value - 1` wraps modulo `2^32` (for `value = 0` the index
becomes `2^32 - 1`; in a debug build the subtraction underflow panics
outright, with the same observable abort).  An out-of-bounds index is a
panic, modelled by `none`. -/
def freeze_step (acc : List (Atom ℚ)) (value : ℕ) : Option (List (Atom ℚ)) :=
  match acc[(value + (2 ^ 32 - 1)) % 2 ^ 32]? with
  | some a => some (acc.set ((value + (2 ^ 32 - 1)) % 2 ^ 32)
      { a with can_mv := false, vel := ⟨0, 0, 0⟩ })
  | none => none

/-- Embedding of `Simulation::freeze_atoms`: apply `freeze_step` for every parsed index
in order. -/
def freeze_atoms (atoms : List (Atom ℚ)) : List ℕ → Option (List (Atom ℚ))
  | [] => some atoms
  | v :: vs =>
    match freeze_step atoms v with
    | some acc => freeze_atoms acc vs
    | none => none

/-- Embedding of `Simulation::new`: ingest the atoms and, when a freeze expression is
given, parse it and freeze the listed atoms (`validate_string` always
returns `Ok`); any panic on the way aborts before a `Simulation` exists. -/
def simulation_new (buffer : List (List Char)) (samples : ℕ → ℚ)
    (freeze : Option (List Char)) (time_step : ℚ) (num_steps : ℕ) :
    Option (Simulation ℚ) :=
  match gn_atoms buffer samples with
  | none => none
  | some atoms0 =>
    match freeze with
    | none => some { atoms := atoms0, time_step := time_step, num_steps := num_steps,
                     step_num := 0, pot_energy := 0, kin_energy := 0, tot_energy := 0 }
    | some fs =>
      match parse_string fs with
      | none => none
      | some to_freeze =>
        match freeze_atoms atoms0 to_freeze with
        | none => none
        | some atoms => some { atoms := atoms, time_step := time_step,
                               num_steps := num_steps, step_num := 0,
                               pot_energy := 0, kin_energy := 0, tot_energy := 0 }

/-- Embedding of `Simulation::from_save`: clone the last checkpoint record and advance
its step counter (`last().unwrap()` panics on an empty store). -/
def from_save (saves : List (Simulation ℚ)) : Option (Simulation ℚ) :=
  match saves.getLast? with
  | some s => some { s with step_num := s.step_num + 1 }
  | none => none

/-- The step numbers for which the `while step_num <= num_steps` loop body
of `Simulation::run` executes, starting from `step`; the fuel never runs
out for the argument `run_trace` passes. -/
def loopSteps : ℕ → ℕ → ℕ → List ℕ
  | 0, _, _ => []
  | fuel + 1, num_steps, step =>
    if step ≤ num_steps then step :: loopSteps fuel num_steps (step + 1) else []

/-- Control-flow skeleton of `Simulation::run`: whether the bootstrap block
(guarded by `step_num == 0`) runs, and the step numbers the loop executes.
The bootstrap block ends with `step_num += 1`, so the loop then starts at
`step_num + 1`. -/
def run_trace (s : Simulation ℚ) : Bool × List ℕ :=
  let boot := s.step_num == 0
  let start := if boot then s.step_num + 1 else s.step_num
  (boot, loopSteps (s.num_steps + 1 - start) s.num_steps start)

/-- A later checkpoint snapshot, the last in the concrete store. -/
def simLast : Simulation ℚ :=
  { atoms := [atomB], time_step := 1, num_steps := 9, step_num := 5,
    pot_energy := 2, kin_energy := 3, tot_energy := 5 }

/-- C1: the position update sets, for every `mobile` atom,
`pos' = pos + vel*dt + 0.5*force*(1/mass)*dt²` using the stored force,
leaves frozen atoms' positions unchanged, and modifies no other atom field
(the right-hand side is a record update touching only `pos`); the atom
count and the time step are unchanged. -/
theorem update_pos_spec (s : Simulation ℚ) (i : ℕ) (a : Atom ℚ)
    (h : s.atoms[i]? = some a) :
    (update_pos s).atoms[i]? =
      some (if a.can_mv then
        { a with pos := vadd (vadd a.pos (smul s.time_step a.vel))
                          (smul ((1 / 2) * (1 / a.mass) * s.time_step ^ 2) a.force) }
       else a)
    ∧ (update_pos s).time_step = s.time_step
    ∧ (update_pos s).atoms.length = s.atoms.length := by
  refine ⟨?_, rfl, by simp [update_pos]⟩
  simp only [update_pos, List.getElem?_map, h, Option.map_some']
  by_cases hc : a.can_mv
  · simp only [hc, if_true]
    have hv : vadd (vadd a.pos (vmul a.vel s.time_step))
        (vmul (vmul (smul (1 / 2) a.force) (1 / a.mass)) (s.time_step ^ 2))
        = vadd (vadd a.pos (smul s.time_step a.vel))
            (smul ((1 / 2) * (1 / a.mass) * s.time_step ^ 2) a.force) := by
      ext <;> simp [vadd, vmul, smul] <;> ring
    rw [hv]
  · simp [hc]

/-- Witness for C1 at a concrete state: index 0 of `simAB` is the mobile
atom `atomA`. -/
theorem update_pos_spec_witness :
    simAB.atoms[0]? = some atomA ∧
    ((update_pos simAB).atoms[0]? =
      some (if atomA.can_mv then
        { atomA with pos := vadd (vadd atomA.pos (smul simAB.time_step atomA.vel))
                               (smul ((1 / 2) * (1 / atomA.mass) * simAB.time_step ^ 2) atomA.force) }
       else atomA)
    ∧ (update_pos simAB).time_step = simAB.time_step
    ∧ (update_pos simAB).atoms.length = simAB.atoms.length) :=
  ⟨by decide, update_pos_spec simAB 0 atomA (by decide)⟩

/-- C2: the velocity update sets, for every `mobile` atom,
`vel' = vel + 0.5*(force + next_force)*(1/mass)*dt`, leaves frozen atoms'
velocities unchanged, and sets `force' = next_force` for every atom,
mobile or not. -/
theorem update_vel_spec (s : Simulation ℚ) (i : ℕ) (a : Atom ℚ)
    (h : s.atoms[i]? = some a) :
    (update_vel s).atoms[i]? =
      some { a with
        vel := if a.can_mv then
            vadd a.vel (smul ((1 / 2) * (1 / a.mass) * s.time_step)
              (vadd a.force a.next_force))
          else a.vel,
        force := a.next_force }
    ∧ (update_vel s).time_step = s.time_step
    ∧ (update_vel s).atoms.length = s.atoms.length := by
  refine ⟨?_, rfl, by simp [update_vel]⟩
  simp only [update_vel, List.getElem?_map, h, Option.map_some']
  by_cases hc : a.can_mv
  · simp only [hc, if_true]
    have hv : vadd a.vel (vmul (vmul (smul (1 / 2) (vadd a.force a.next_force))
          (1 / a.mass)) s.time_step)
        = vadd a.vel (smul ((1 / 2) * (1 / a.mass) * s.time_step)
            (vadd a.force a.next_force)) := by
      ext <;> simp [vadd, vmul, smul] <;> ring
    rw [hv]
  · simp [hc]

/-- Witness for C2 at a concrete state: index 1 of `simAB` is the frozen
atom `atomB`; its velocity survives and its force register is overwritten. -/
theorem update_vel_spec_witness :
    simAB.atoms[1]? = some atomB ∧
    ((update_vel simAB).atoms[1]? =
      some { atomB with
        vel := if atomB.can_mv then
            vadd atomB.vel (smul ((1 / 2) * (1 / atomB.mass) * simAB.time_step)
              (vadd atomB.force atomB.next_force))
          else atomB.vel,
        force := atomB.next_force }
    ∧ (update_vel simAB).time_step = simAB.time_step
    ∧ (update_vel simAB).atoms.length = simAB.atoms.length) :=
  ⟨by decide, update_vel_spec simAB 1 atomB (by decide)⟩

/-- A projection commuting with `vadd` distributes over the `foldl` used in
`cmv_mv`. -/
theorem foldl_vadd_proj (f : Vector3D ℚ → ℚ)
    (hadd : ∀ a b : Vector3D ℚ, f (vadd a b) = f a + f b) :
    ∀ (l : List (Vector3D ℚ)) (v : Vector3D ℚ),
      f (l.foldl vadd v) = f v + (l.map f).sum
  | [], v => by simp
  | w :: l, v => by
    simp only [List.foldl_cons, List.map_cons, List.sum_cons]
    rw [foldl_vadd_proj f hadd l (vadd v w), hadd]
    ring

/-- Summing `(g a - c) * mass` over a list splits into the two sums. -/
theorem sum_map_sub_mul (l : List (Atom ℚ)) (g : Atom ℚ → ℚ) (c : ℚ) :
    (l.map fun a => (g a - c) * a.mass).sum
      = (l.map fun a => g a * a.mass).sum - c * (l.map fun a => a.mass).sum := by
  induction l with
  | nil => simp
  | cons a l ih =>
    simp only [List.map_cons, List.sum_cons, ih]
    ring

/-- One component of the total momentum of `rm_cmv atoms` vanishes, for any
projection `f` commuting with the vector operations. -/
theorem rm_cmv_comp (atoms : List (Atom ℚ)) (hM : cmv_m atoms ≠ 0)
    (f : Vector3D ℚ → ℚ)
    (hadd : ∀ a b, f (vadd a b) = f a + f b)
    (hzero : f (⟨0, 0, 0⟩ : Vector3D ℚ) = 0)
    (hsmul : ∀ (c : ℚ) v, f (smul c v) = f v * c)
    (hsub : ∀ a b, f (vsub a b) = f a - f b)
    (hmul : ∀ v (c : ℚ), f (vmul v c) = f v * c) :
    f (cmv_mv (rm_cmv atoms)) = 0 := by
  have hbase : ∀ l : List (Atom ℚ),
      f (cmv_mv l) = (l.map fun a => f a.vel * a.mass).sum := by
    intro l
    unfold cmv_mv
    rw [foldl_vadd_proj f hadd, hzero, zero_add, List.map_map]
    have hfun : (f ∘ fun x : Atom ℚ => smul x.mass x.vel)
        = fun a : Atom ℚ => f a.vel * a.mass := by
      funext a
      simp [Function.comp, hsmul]
    rw [hfun]
  have hmass : ∀ a : Atom ℚ, (apply_to_atom a (cmv atoms)).mass = a.mass := by
    intro a; rfl
  have hvel : ∀ a : Atom ℚ,
      f ((apply_to_atom a (cmv atoms)).vel) = f a.vel - f (cmv atoms) := by
    intro a
    simp [apply_to_atom, hsub]
  rw [hbase, rm_cmv, List.map_map]
  have hcongr : ((atoms.map fun x => apply_to_atom x (cmv atoms)).map
        fun a => f a.vel * a.mass)
      = atoms.map fun a => (f a.vel - f (cmv atoms)) * a.mass := by
    rw [List.map_map]
    congr 1
    funext a
    simp [Function.comp, hvel a, hmass a]
  rw [← List.map_map, hcongr, sum_map_sub_mul]
  have hc : f (cmv atoms) = (atoms.map fun a => f a.vel * a.mass).sum * (1 / cmv_m atoms) := by
    rw [cmv, hmul, hbase]
  rw [hc]
  have hM2 : (atoms.map fun x => x.mass).sum ≠ 0 := hM
  unfold cmv_m
  field_simp

/-- C3: after center-of-mass-velocity removal each atom's velocity becomes
`vᵢ - (Σ mⱼvⱼ)/(Σ mⱼ)` (a record update touching only `vel`, so positions,
masses, symbols, mobility flags and forces are unchanged), and the
mass-weighted velocity sum of the result is exactly the zero vector. -/
theorem rm_cmv_spec (atoms : List (Atom ℚ)) (hne : atoms ≠ [])
    (hpos : ∀ a ∈ atoms, 0 < a.mass) :
    (∀ (i : ℕ) (a : Atom ℚ), atoms[i]? = some a →
        (rm_cmv atoms)[i]? = some { a with vel := vsub a.vel (cmv atoms) })
    ∧ cmv_mv (rm_cmv atoms) = ⟨0, 0, 0⟩ := by
  have hM : (0 : ℚ) < cmv_m atoms := by
    apply List.sum_pos
    · intro m hm
      rcases List.mem_map.mp hm with ⟨a, ha, rfl⟩
      exact hpos a ha
    · simpa using hne
  have hM' : cmv_m atoms ≠ 0 := ne_of_gt hM
  constructor
  · intro i a h
    simp [rm_cmv, List.getElem?_map, h, apply_to_atom]
  · ext
    · exact rm_cmv_comp atoms hM' (fun v => v.x) (by intro a b; simp [vadd])
        (by simp) (by intro c v; simp [smul]) (by intro a b; simp [vsub])
        (by intro v c; simp [vmul])
    · exact rm_cmv_comp atoms hM' (fun v => v.y) (by intro a b; simp [vadd])
        (by simp) (by intro c v; simp [smul]) (by intro a b; simp [vsub])
        (by intro v c; simp [vmul])
    · exact rm_cmv_comp atoms hM' (fun v => v.z) (by intro a b; simp [vadd])
        (by simp) (by intro c v; simp [smul]) (by intro a b; simp [vsub])
        (by intro v c; simp [vmul])

/-- Witness for C3 on a concrete two-atom list with positive masses. -/
theorem rm_cmv_spec_witness :
    ([atomA, atomB] : List (Atom ℚ)) ≠ [] ∧ (∀ a ∈ [atomA, atomB], 0 < a.mass) ∧
    ((∀ (i : ℕ) (a : Atom ℚ), ([atomA, atomB] : List (Atom ℚ))[i]? = some a →
        (rm_cmv [atomA, atomB])[i]? = some { a with vel := vsub a.vel (cmv [atomA, atomB]) })
    ∧ cmv_mv (rm_cmv [atomA, atomB]) = ⟨0, 0, 0⟩) :=
  ⟨by decide, by decide, rm_cmv_spec [atomA, atomB] (by decide) (by decide)⟩

/-- Scaling a vector scales its squared norm by the square of the factor. -/
theorem sqr_norm_vmul (v : Vector3D ℝ) (c : ℝ) :
    sqr_norm (vmul v c) = sqr_norm v * c ^ 2 := by
  simp only [sqr_norm, vmul]
  ring

/-- Pulling a constant factor out of a mapped sum. -/
theorem sum_map_mul_const {α : Type} (l : List α) (g : α → ℝ) (k : ℝ) :
    (l.map fun a => g a * k).sum = (l.map g).sum * k := by
  induction l with
  | nil => simp
  | cons a l ih =>
    simp only [List.map_cons, List.sum_cons, ih]
    ring

/-- C4: for a state whose stored kinetic energy agrees with its velocities
and is positive, rescaling by `scale_temp` and recomputing the kinetic
energy with `update_kin` yields a state whose equipartition temperature is
exactly the reference temperature 300. -/
theorem scale_temp_spec (s : Simulation ℝ)
    (hsync : s.kin_energy
      = ((s.atoms.map fun x => (1 / 2) * x.mass * sqr_norm x.vel).sum) * 100)
    (hpos : 0 < s.kin_energy) :
    temp_of ((update_kin (scale_temp s)).kin_energy) = 300 := by
  have hR : (0 : ℝ) < Rgas := by
    unfold Rgas
    norm_num
  have hT : 0 < temp_of s.kin_energy := by
    unfold temp_of
    positivity
  have hc2 : Real.sqrt (300 / temp_of s.kin_energy) ^ 2 = 300 / temp_of s.kin_energy :=
    Real.sq_sqrt (by positivity)
  have hkin : (update_kin (scale_temp s)).kin_energy
      = s.kin_energy * Real.sqrt (300 / temp_of s.kin_energy) ^ 2 := by
    show (((scale_temp s).atoms.map fun x => (1 / 2) * x.mass * sqr_norm x.vel).sum) * 100 = _
    have hatoms : (scale_temp s).atoms
        = s.atoms.map fun a =>
            { a with vel := vmul a.vel (Real.sqrt (300 / temp_of s.kin_energy)) } := rfl
    rw [hatoms, List.map_map]
    have hfun : ((fun x : Atom ℝ => (1 / 2) * x.mass * sqr_norm x.vel) ∘ fun a : Atom ℝ =>
          { a with vel := vmul a.vel (Real.sqrt (300 / temp_of s.kin_energy)) })
        = fun a : Atom ℝ => ((1 / 2) * a.mass * sqr_norm a.vel)
            * Real.sqrt (300 / temp_of s.kin_energy) ^ 2 := by
      funext a
      simp only [Function.comp, sqr_norm_vmul]
      ring
    rw [hfun, sum_map_mul_const]
    rw [hsync]
    ring
  rw [hkin, hc2]
  unfold temp_of at hT ⊢
  field_simp
  ring

/-- Witness for C4 at the concrete state `simT`. -/
theorem scale_temp_spec_witness :
    temp_of ((update_kin (scale_temp simT)).kin_energy) = 300 :=
  scale_temp_spec simT (by norm_num [simT, sqr_norm]) (by norm_num [simT])

/-- Every successfully built atom carries the single drawn sample on all
three velocity components. -/
theorem make_atom_vel_aux (line : List Char) (sample : ℚ) (a : Atom ℚ)
    (h : make_atom line sample = some a) : a.vel = ⟨sample, sample, sample⟩ := by
  simp only [make_atom] at h
  repeat' split at h
  all_goals try simp_all
  all_goals (subst h; rfl)

/-- C9: the initial velocity of every atom produced by ingestion reuses the
one drawn normal sample on all three axes: `v = (sample, sample, sample)`,
so `v_x = v_y = v_z`. -/
theorem make_atom_vel (line : List Char) (sample : ℚ)
    (h : (make_atom line sample).isSome) :
    ((make_atom line sample).get h).vel = ⟨sample, sample, sample⟩ :=
  make_atom_vel_aux line sample _ (Option.some_get h).symm

/-- Witness for C9 on a concrete record line and sample 5. -/
theorem make_atom_vel_witness :
    (make_atom line9 5).isSome = true ∧
    ((make_atom line9 5).get (by decide)).vel = ⟨5, 5, 5⟩ :=
  ⟨by decide, make_atom_vel line9 5 (by decide)⟩

/-- The collector `optMapM` succeeds when every element converts, with the same length. -/
theorem optMapM_isSome {α β : Type} (f : α → Option β) :
    ∀ l : List α, (∀ x ∈ l, (f x).isSome) →
      ∃ l', optMapM f l = some l' ∧ l'.length = l.length
  | [], _ => ⟨[], rfl, rfl⟩
  | a :: as, h => by
    obtain ⟨b, hb⟩ := Option.isSome_iff_exists.mp (h a (List.mem_cons_self a as))
    obtain ⟨bs, hbs, hlen⟩ := optMapM_isSome f as fun x hx => h x (List.mem_cons_of_mem a hx)
    exact ⟨b :: bs, by simp [optMapM, hb, hbs], by simp [hlen]⟩

/-- The selection `reverse, take n, reverse` is the `n`-element suffix in
original order. -/
theorem reverse_take_reverse_eq_drop {α : Type} (l : List α) (n : ℕ) :
    (l.reverse.take n).reverse = l.drop (l.length - n) :=
  (List.rtake_eq_reverse_take_reverse l n).symm

/-- C5: when the source declares an atom count `n`, has at least `n` lines
matching the per-atom pattern, and each selected line builds an atom,
`gn_atoms` produces exactly `n` atoms, built (in order, then jointly
shifted by `rm_cmv`) from the last `n` matching lines of the source taken
in their original relative order (the `n`-element suffix of the matching
lines). -/
theorem gn_atoms_spec (buffer : List (List Char)) (samples : ℕ → ℚ) (n : ℕ)
    (hn : get_num_atoms buffer = some n)
    (hlen : n ≤ (read_atomic_lines buffer).length)
    (hsel : ∀ p ∈ (((read_atomic_lines buffer).reverse.take n).reverse).enum,
        (make_atom p.2 (samples p.1)).isSome) :
    ∃ pre : List (Atom ℚ),
      optMapM (fun p => make_atom p.2 (samples p.1))
          ((((read_atomic_lines buffer).reverse.take n).reverse).enum) = some pre
      ∧ gn_atoms buffer samples = some (rm_cmv pre)
      ∧ (rm_cmv pre).length = n
      ∧ ((read_atomic_lines buffer).reverse.take n).reverse
          = (read_atomic_lines buffer).drop ((read_atomic_lines buffer).length - n) := by
  obtain ⟨pre, hpre, hplen⟩ := optMapM_isSome _ _ hsel
  refine ⟨pre, hpre, ?_, ?_, reverse_take_reverse_eq_drop _ n⟩
  · unfold gn_atoms
    simp [hn, hpre]
  · rw [rm_cmv, List.length_map, hplen]
    simp [List.enum_length, Nat.min_eq_left hlen]

/-- Witness for C5 on `buf5`: count 2, three matching lines, so the last
two are used. -/
theorem gn_atoms_spec_witness :
    get_num_atoms buf5 = some 2 ∧
    2 ≤ (read_atomic_lines buf5).length ∧
    (∀ p ∈ (((read_atomic_lines buf5).reverse.take 2).reverse).enum,
        (make_atom p.2 (smp0 p.1)).isSome) ∧
    (∃ pre : List (Atom ℚ),
      optMapM (fun p => make_atom p.2 (smp0 p.1))
          ((((read_atomic_lines buf5).reverse.take 2).reverse).enum) = some pre
      ∧ gn_atoms buf5 smp0 = some (rm_cmv pre)
      ∧ (rm_cmv pre).length = 2
      ∧ ((read_atomic_lines buf5).reverse.take 2).reverse
          = (read_atomic_lines buf5).drop ((read_atomic_lines buf5).length - 2)) :=
  ⟨by decide, by decide, by decide, gn_atoms_spec buf5 smp0 2 (by decide) (by decide) (by decide)⟩

/-- C7 (divergence): on an evaluator output with a valid energy line and no
force records, `GaussianOutput::new` succeeds with an empty force list, and
`update_next_forces` then succeeds leaving every atom's `next_force`
register unchanged — the engine continues the step with stale force data
instead of failing. -/
theorem gaussian_missing_forces_not_fatal :
    (gaussianOutput_new gbuf7).isSome = true
    ∧ (gaussianOutput_new gbuf7).elim [] GaussianOutput.forces = []
    ∧ update_next_forces_atoms [atom7]
        ((gaussianOutput_new gbuf7).elim [] GaussianOutput.forces) = some [atom7] := by
  refine ⟨by decide, by decide, by decide⟩

/-- Counterexample to C8 as stated: the single-token expression `1` (one
integer, no `-`) makes the parser panic instead of being skipped. -/
theorem parse_string_panics_concrete : parse_string ("1".toList) = none := by
  decide

/-- The embedded `convert_to_range` succeeds exactly when at least two parts parse. -/
theorem convert_to_range_isSome (t : List Char) :
    (convert_to_range t).isSome ↔ 2 ≤ ((t.splitOn '-').filterMap parseU32).length := by
  unfold convert_to_range
  rcases h0 : ((t.splitOn '-').filterMap parseU32)[0]? with _ | a
  · rw [List.getElem?_eq_none_iff] at h0
    have h1 : ((t.splitOn '-').filterMap parseU32)[1]? = none :=
      List.getElem?_eq_none_iff.mpr (by omega)
    rw [h1]
    simp
    omega
  · rcases h1 : ((t.splitOn '-').filterMap parseU32)[1]? with _ | b
    · rw [List.getElem?_eq_none_iff] at h1
      simp
      omega
    · obtain ⟨hlt, -⟩ := List.getElem?_eq_some_iff.mp h1
      simp
      omega

/-- The collector `optMapM` succeeds exactly when every element converts. -/
theorem optMapM_isSome_iff {α β : Type} (f : α → Option β) :
    ∀ l : List α, (optMapM f l).isSome ↔ ∀ x ∈ l, (f x).isSome
  | [] => by simp [optMapM]
  | a :: as => by
    have ih := optMapM_isSome_iff f as
    rcases ha : f a with _ | b
    · simp [optMapM, ha]
    · rcases has : optMapM f as with _ | bs
      · rw [has] at ih
        simp only [Option.isSome_none, Bool.false_eq_true, false_iff] at ih
        simp only [optMapM, ha, has, Option.isSome_none, Bool.false_eq_true, false_iff]
        intro hall
        exact ih fun x hx => hall x (List.mem_cons_of_mem a hx)
      · rw [has] at ih
        simp only [optMapM, ha, has, Option.isSome_some, true_iff]
        rw [List.forall_mem_cons]
        exact ⟨by simp [ha], ih.mp rfl⟩

/-- The collector `optMapM` computes the pointwise map when every element converts. -/
theorem optMapM_eq_map {α β : Type} (f : α → Option β) (g : α → β) :
    ∀ l : List α, (∀ x ∈ l, f x = some (g x)) → optMapM f l = some (l.map g)
  | [], _ => rfl
  | a :: as, h => by
    have ha : f a = some (g a) := h a (List.mem_cons_self a as)
    have has := optMapM_eq_map f g as fun x hx => h x (List.mem_cons_of_mem a hx)
    simp [optMapM, ha, has]

/-- The value produced by a successful `convert_to_range`. -/
theorem convert_to_range_eq (t : List Char)
    (h : 2 ≤ ((t.splitOn '-').filterMap parseU32).length) :
    convert_to_range t = some (rangeOf t) := by
  unfold convert_to_range rangeOf
  rw [List.getElem?_eq_getElem (by omega : 0 < ((t.splitOn '-').filterMap parseU32).length),
    List.getElem?_eq_getElem (by omega : 1 < ((t.splitOn '-').filterMap parseU32).length)]
  simp [List.getD_eq_getElem?_getD, List.getElem?_eq_getElem,
    (by omega : 0 < ((t.splitOn '-').filterMap parseU32).length),
    (by omega : 1 < ((t.splitOn '-').filterMap parseU32).length)]

/-- C8 (amended): the range parser succeeds exactly when every
comma-separated token has at least two integer-parseable `-`-parts (other
tokens panic on the `result[0]`/`result[1]` indexing), and on success it
returns the concatenation of the inclusive ranges built from the first two
parsed parts of each token. -/
theorem parse_string_spec (s : List Char) :
    ((parse_string s).isSome ↔ ∀ t ∈ s.splitOn ',',
        2 ≤ ((t.splitOn '-').filterMap parseU32).length)
    ∧ ((∀ t ∈ s.splitOn ',', 2 ≤ ((t.splitOn '-').filterMap parseU32).length) →
        parse_string s
          = some (((s.splitOn ',').map fun t => gen_numbers (rangeOf t)).flatten)) := by
  constructor
  · have h1 : (parse_string s).isSome
        = (optMapM (fun t => (convert_to_range t).map gen_numbers) (s.splitOn ',')).isSome := by
      unfold parse_string
      rcases hm : optMapM (fun t => (convert_to_range t).map gen_numbers) (s.splitOn ',')
        with _ | ls <;> simp [hm]
    rw [h1, optMapM_isSome_iff]
    constructor
    · intro h t ht
      have := h t ht
      rw [Option.isSome_map'] at this
      rw [← convert_to_range_isSome]
      exact this
    · intro h t ht
      rw [Option.isSome_map', convert_to_range_isSome]
      exact h t ht
  · intro h
    unfold parse_string
    rw [optMapM_eq_map (fun t => (convert_to_range t).map gen_numbers)
      (fun t => gen_numbers (rangeOf t))]
    intro t ht
    rw [convert_to_range_eq t (h t ht)]
    rfl

/-- Witness for C8 on the well-formed expression `2-4,7-7`. -/
theorem parse_string_spec_witness :
    parse_string ("2-4,7-7".toList)
      = some (((("2-4,7-7".toList).splitOn ',').map fun t =>
          gen_numbers (rangeOf t)).flatten) :=
  (parse_string_spec ("2-4,7-7".toList)).2 (by decide)

/-- The embedded `freeze_atoms` panics whenever the index list contains `0` or an index
beyond the atom count (earlier in-range indices are applied first and
preserve the length). -/
theorem freeze_atoms_bad_index (idxs : List ℕ) :
    ∀ atoms : List (Atom ℚ), atoms.length < 2 ^ 32 → (∀ v ∈ idxs, v < 2 ^ 32) →
      (∃ v ∈ idxs, v = 0 ∨ atoms.length < v) → freeze_atoms atoms idxs = none := by
  induction idxs with
  | nil =>
    intro atoms _ _ hbad
    simp at hbad
  | cons v vs ih =>
    intro atoms hsmall hb hbad
    by_cases hv : v = 0 ∨ atoms.length < v
    · have hidx : atoms.length ≤ (v + (2 ^ 32 - 1)) % 2 ^ 32 := by
        rcases hv with rfl | hgt
        · rw [Nat.zero_add, Nat.mod_eq_of_lt (by omega)]
          omega
        · have hv1 : 1 ≤ v := by omega
          have hvlt : v < 2 ^ 32 := hb v (List.mem_cons_self v vs)
          have : v + (2 ^ 32 - 1) = (v - 1) + 2 ^ 32 := by omega
          rw [this, Nat.add_mod_right, Nat.mod_eq_of_lt (by omega)]
          omega
      have hstep : freeze_step atoms v = none := by
        unfold freeze_step
        rw [List.getElem?_eq_none_iff.mpr hidx]
      rw [freeze_atoms, hstep]
    · push_neg at hv
      obtain ⟨hv0, hvle⟩ := hv
      have hv1 : 1 ≤ v := by omega
      have hidx : (v + (2 ^ 32 - 1)) % 2 ^ 32 = v - 1 := by
        have : v + (2 ^ 32 - 1) = (v - 1) + 2 ^ 32 := by omega
        rw [this, Nat.add_mod_right, Nat.mod_eq_of_lt (by omega)]
      have hlt : v - 1 < atoms.length := by omega
      have hstep : freeze_step atoms v
          = some (atoms.set (v - 1)
              { atoms[v - 1] with can_mv := false, vel := ⟨0, 0, 0⟩ }) := by
        unfold freeze_step
        rw [hidx, List.getElem?_eq_getElem hlt]
      rw [freeze_atoms, hstep]
      apply ih
      · rw [List.length_set]
        exact hsmall
      · exact fun w hw => hb w (List.mem_cons_of_mem v hw)
      · obtain ⟨w, hw, hwbad⟩ := hbad
        rcases List.mem_cons.mp hw with rfl | hw
        · rcases hwbad with rfl | hgt
          · omega
          · omega
        · refine ⟨w, hw, ?_⟩
          rw [List.length_set]
          exact hwbad

/-- C10: when the parsed freeze ranges contain the index `0` or an index
greater than the atom count, the freeze loop panics (`u32` underflow of
`value - 1`, or out-of-bounds indexing) instead of returning an error
value, and `Simulation::new` constructs no simulation. -/
theorem simulation_new_bad_freeze (buffer : List (List Char)) (samples : ℕ → ℚ)
    (fs : List Char) (idxs : List ℕ) (time_step : ℚ) (num_steps : ℕ)
    (hga : (gn_atoms buffer samples).isSome)
    (hsmall : (gn_atoms buffer samples).elim 0 List.length < 2 ^ 32)
    (hps : parse_string fs = some idxs)
    (hb : ∀ v ∈ idxs, v < 2 ^ 32)
    (hbad : ∃ v ∈ idxs, v = 0 ∨ (gn_atoms buffer samples).elim 0 List.length < v) :
    (∀ atoms0, gn_atoms buffer samples = some atoms0 → freeze_atoms atoms0 idxs = none)
    ∧ simulation_new buffer samples (some fs) time_step num_steps = none := by
  obtain ⟨atoms0, h0⟩ := Option.isSome_iff_exists.mp hga
  rw [h0] at hsmall hbad
  simp only [Option.elim] at hsmall hbad
  have hfr : freeze_atoms atoms0 idxs = none :=
    freeze_atoms_bad_index idxs atoms0 hsmall hb hbad
  constructor
  · intro atoms1 h1
    rw [h0] at h1
    injection h1 with h1
    rw [← h1]
    exact hfr
  · unfold simulation_new
    rw [h0]
    simp only [hps, hfr]

/-- Witness for C10: the expression `0-1` parses to indices `{0, 1}`; index
`0` makes the freeze of the two `buf5` atoms panic, so no simulation is
constructed. -/
theorem simulation_new_bad_freeze_witness :
    (gn_atoms buf5 smp0).isSome = true ∧
    (gn_atoms buf5 smp0).elim 0 List.length < 2 ^ 32 ∧
    parse_string ("0-1".toList) = some [0, 1] ∧
    (∀ v ∈ [0, 1], v < 2 ^ 32) ∧
    (∃ v ∈ [0, 1], v = 0 ∨ (gn_atoms buf5 smp0).elim 0 List.length < v) ∧
    ((∀ atoms0, gn_atoms buf5 smp0 = some atoms0 →
        freeze_atoms atoms0 [0, 1] = none)
      ∧ simulation_new buf5 smp0 (some ("0-1".toList)) 1 10 = none) :=
  ⟨by decide, by decide, by decide, by decide, by decide,
    simulation_new_bad_freeze buf5 smp0 ("0-1".toList) [0, 1] 1 10
      (by decide) (by decide) (by decide) (by decide) (by decide)⟩

/-- Every step the loop executes is at least the starting step. -/
theorem loopSteps_ge : ∀ (fuel num_steps step k : ℕ),
    k ∈ loopSteps fuel num_steps step → step ≤ k
  | 0, _, _, _ => by simp [loopSteps]
  | fuel + 1, num_steps, step, k => by
    unfold loopSteps
    by_cases h : step ≤ num_steps
    · rw [if_pos h]
      intro hk
      rcases List.mem_cons.mp hk with rfl | hk
      · exact Nat.le_refl k
      · exact Nat.le_of_succ_le (loopSteps_ge fuel num_steps (step + 1) k hk)
    · rw [if_neg h]
      simp

/-- C6: restart rebuilds the state from the last checkpoint snapshot only,
with its step counter advanced to `step_num + 1`; on the rebuilt state the
bootstrap guard `step_num == 0` is false, and every step the run loop then
executes is at least `step_num + 1`, so no previously completed step is
re-executed. -/
theorem from_save_resumes (saves : List (Simulation ℚ)) (last : Simulation ℚ)
    (h : saves.getLast? = some last) :
    from_save saves = some { last with step_num := last.step_num + 1 }
    ∧ (run_trace { last with step_num := last.step_num + 1 }).1 = false
    ∧ ∀ k ∈ (run_trace { last with step_num := last.step_num + 1 }).2,
        last.step_num + 1 ≤ k := by
  refine ⟨by simp [from_save, h], ?_, ?_⟩
  · simp [run_trace]
  · intro k hk
    simp only [run_trace] at hk
    rw [show (({ last with step_num := last.step_num + 1 } :
        Simulation ℚ).step_num == 0) = false by simp] at hk
    exact loopSteps_ge _ _ _ k (by simpa using hk)

/-- Witness for C6 on a concrete two-snapshot checkpoint store. -/
theorem from_save_resumes_witness :
    ([simAB, simLast] : List (Simulation ℚ)).getLast? = some simLast ∧
    (from_save [simAB, simLast] = some { simLast with step_num := simLast.step_num + 1 }
    ∧ (run_trace { simLast with step_num := simLast.step_num + 1 }).1 = false
    ∧ ∀ k ∈ (run_trace { simLast with step_num := simLast.step_num + 1 }).2,
        simLast.step_num + 1 ≤ k) :=
  ⟨by decide, from_save_resumes [simAB, simLast] simLast (by decide)⟩

end EZAIMD
